import Mathlib

/-!
Verification of the wiki_export core: a shallow embedding of
`offsetsbuilder/offsetsbuilder.py`, `wikiparser/wikiparser.py` and `util.py`
into Lean 4, together with theorems settling the specification claims.

Text is modelled as `List Char`; Python integers are `Int` (arbitrary
precision, so no wrapping); Python `IndexError` / `ValueError` paths are
modelled with `Option` / an explicit result type.
-/

namespace WikiExport

/-! ## Python primitives -/

/-- Python-style indexing `text[i]`: a negative index counts from the end;
an index out of range (after normalisation) raises `IndexError`, modelled
as `none`. -/
def pyGet (l : List Char) (i : Int) : Option Char :=
  let j : Int := if i < 0 then i + l.length else i
  if 0 ≤ j ∧ j < l.length then l.get? j.toNat else none

/-- Python whitespace characters stripped by `str.strip()`. -/
def pyWs (c : Char) : Bool :=
  c = ' ' || c = '\t' || c = '\n' || c = '\r' || c = '\x0b' || c = '\x0c'

/-- Python `str.strip()`: remove whitespace from both ends. -/
def pyStrip (l : List Char) : List Char :=
  ((l.dropWhile pyWs).reverse.dropWhile pyWs).reverse

/-- Python `str.strip(chars)`: remove any of the given characters from both
ends. -/
def pyStripChars (cs : List Char) (l : List Char) : List Char :=
  ((l.dropWhile cs.contains).reverse.dropWhile cs.contains).reverse

/-- Python slicing `l[a:b]` for non-negative bounds (clamped as in Python). -/
def pySlice (l : List Char) (a b : Nat) : List Char :=
  (l.drop a).take (b - a)

/-- Literal-matching helper: if `pat` is an initial segment of `s`, return
the remainder of `s`, else `none`. -/
def dropLit : List Char → List Char → Option (List Char)
  | [], s => some s
  | _ :: _, [] => none
  | p :: ps, c :: cs => if c = p then dropLit ps cs else none

/-- Boolean test that `pat` is an initial segment of `s`, as Python
`str.startswith`. -/
def startsWithL (pat s : List Char) : Bool :=
  (dropLit pat s).isSome

/-! ## Configuration

The repository reads these values from `config.ini`, which is not part of
the sources; the values below are modelled from the spec. -/

/-- Modelled from the spec: `config.ini` is missing from the sources; the
spec gives the default inline page-marker open token as `PAGE` (section 6). -/
def pagekw_out_open : List Char := ['P', 'A', 'G', 'E']

/-- Modelled from the spec: the default inline page-marker close token is
`EGAP` (spec section 6). -/
def pagekw_out_close : List Char := ['E', 'G', 'A', 'P']

/-- Modelled from the spec: the wiki-side page keyword; the spec's scenario
"PAGEabcEGAP raises a fatal format error" forces this keyword to be `PAGE`
(spec section 8). -/
def pagekw_input : List Char := ['P', 'A', 'G', 'E']

/-- ASCII or Arabic-Indic digit, as allowed in page info (spec: "digits
(Arabic-Indic or ASCII)"). -/
def isPageDigit (c : Char) : Bool :=
  ('0' ≤ c && c ≤ '9') || ('٠' ≤ c && c ≤ '٩')

/-- Allowed suffix letter of a folio identifier. -/
def isRV (c : Char) : Bool := c = 'r' || c = 'v'

/-- Modelled from the spec: full match of the `page allowed` pattern
(one or more digits, optionally suffixed by `r`/`v`). -/
def pageAllowedMatch (l : List Char) : Bool :=
  let ds := l.takeWhile isPageDigit
  let rest := l.dropWhile isPageDigit
  !ds.isEmpty && (rest.isEmpty || (rest.length = 1 && rest.all isRV))

/-! ## OffsetsBuilder: the inline-marker scanner

`OffsetsBuilder._calculate` iterates `re.finditer` over the pattern
`PAGE(<page allowed>)EGAP *`.  The scanner below reproduces the leftmost,
non-overlapping semantics of `finditer` for this concrete pattern: at a
match position the digit run is maximal, an optional `r`/`v` follows (the
regex backtracks over `[rv]?` if `EGAP` does not follow it), then the
literal `EGAP`, then a maximal run of spaces, all part of the match. -/

/-- Try to match one `PAGE<info>EGAP<spaces>` marker at the head of `s`.
Returns the consumed length and the captured info group. -/
def matchMarker (s : List Char) : Option (Nat × List Char) :=
  match dropLit pagekw_out_open s with
  | none => none
  | some s1 =>
    let ds := s1.takeWhile isPageDigit
    let s2 := s1.dropWhile isPageDigit
    if ds.isEmpty then none
    else
      match s2 with
      | [] => none
      | c :: s3 =>
        if isRV c then
          match dropLit pagekw_out_close s3 with
          | some s4 =>
            let s5 := s4.dropWhile (· = ' ')
            some (s.length - s5.length, ds ++ [c])
          | none =>
            match dropLit pagekw_out_close s2 with
            | some s4 =>
              let s5 := s4.dropWhile (· = ' ')
              some (s.length - s5.length, ds)
            | none => none
        else
          match dropLit pagekw_out_close s2 with
          | some s4 =>
            let s5 := s4.dropWhile (· = ' ')
            some (s.length - s5.length, ds)
          | none => none

/-- Fuel-driven scan for `re.finditer`: at each position try a marker match;
on success record `(start, end, info)` and continue after the match, else
advance one character.  Every step consumes at least one character of `s`,
so fuel `s.length + 1` never runs out. -/
def findMarkersGo : Nat → List Char → Nat → List (Nat × Nat × List Char)
  | 0, _, _ => []
  | _ + 1, [], _ => []
  | fuel + 1, c :: rest, p =>
    match matchMarker (c :: rest) with
    | some (k, info) => (p, p + k, info) :: findMarkersGo fuel ((c :: rest).drop k) (p + k)
    | none => findMarkersGo fuel rest (p + 1)

/-- All marker matches of `re.finditer(r'PAGE(<allowed>)EGAP *', s)`, as
`(span-start, span-end, group 1)` triples in order. -/
def findMarkers (s : List Char) : List (Nat × Nat × List Char) :=
  findMarkersGo (s.length + 1) s 0

/-! ## OffsetsBuilder data model -/

/-- One chunk of the parser's output and the builder's input:
`json` shape `[ .. section : str|null, text : str .. ]`.  The Python key
`section` is a Lean keyword, hence the field name `sect`. -/
structure Chunk where
  sect : Option (List Char)
  text : List Char
deriving DecidableEq

/-- A named offset range; `stop` is the Python dict key `end` (a Lean
keyword). -/
structure Rng where
  name : List Char
  start : Int
  stop : Int
deriving DecidableEq

/-- Final output of `OffsetsBuilder.build`. -/
structure AnnotatedText where
  text : List Char
  sections : List Rng
  pages : List Rng
deriving DecidableEq

/-- Python truthiness of `chunk['section']`: not null and not empty. -/
def sectTruthy : Option (List Char) → Bool
  | none => false
  | some s => !s.isEmpty

/-- Mutable state of `OffsetsBuilder._calculate` (plus the loop-leaked
variable `page_info`, kept separate from `current_page_info` as in the
source). -/
structure CalcSt where
  alltext : List Char
  sections : List Rng
  pages : List Rng
  pivot : Nat
  isPageStart : Bool
  currentPageInfo : List Char
  pageInfo : List Char
  myLastEnd : Int
deriving DecidableEq

/-- Inner loop of `_calculate` over one chunk's marker matches; carries the
chunk-local cursors `current` and `remove_gaps`. -/
def calcMarkers (text : List Char) :
    List (Nat × Nat × List Char) → CalcSt → Nat → Nat → CalcSt × Nat × Nat
  | [], st, current, gaps => (st, current, gaps)
  | (ms, me, info) :: rest, st, current, gaps =>
    let st1 :=
      if st.isPageStart then
        let currentEnd : Int := (st.pivot : Int) + (ms : Int) - (gaps : Int) - 1
        { st with
          pages := st.pages ++ [⟨st.currentPageInfo, st.myLastEnd, currentEnd⟩],
          myLastEnd := currentEnd }
      else st
    let gaps1 := gaps + (me - ms)
    let st2 :=
      { st1 with
        isPageStart := true,
        currentPageInfo := info,
        pageInfo := info,
        alltext := st1.alltext ++ pySlice text current ms }
    calcMarkers text rest st2 me gaps1

/-- Body of `_calculate`'s outer loop for one chunk: scan markers, append
the tail of the chunk, then handle a truthy section and advance `pivot`. -/
def calcChunk (st : CalcSt) (chunk : Chunk) : CalcSt :=
  let ms := findMarkers chunk.text
  let (st1, current, _gaps) := calcMarkers chunk.text ms st 0 0
  let st2 := { st1 with alltext := st1.alltext ++ chunk.text.drop current }
  let st3 :=
    if sectTruthy chunk.sect then
      let at2 := st2.alltext ++ ['\n']
      { st2 with
        alltext := at2,
        sections := st2.sections ++
          [⟨chunk.sect.getD [], (st2.pivot : Int), (at2.length : Int) - 1⟩] }
    else st2
  { st3 with pivot := st3.alltext.length }

/-- `OffsetsBuilder._calculate`: fold over the chunks, then close the final
page if any marker was seen. -/
def calculate (data : List Chunk) : CalcSt :=
  let st0 : CalcSt := ⟨[], [], [], 0, false, [], [], 0⟩
  let st := data.foldl calcChunk st0
  if st.isPageStart then
    { st with pages := st.pages ++ [⟨st.pageInfo, st.myLastEnd + 1, (st.pivot : Int) - 1⟩] }
  else st

/-! ## OffsetsBuilder: border adjustment

`_adjust_borders` runs `while alltext[start] in ('\n', ' '): start += 1`
and `while alltext[end] == '\n': end -= 1` with Python indexing, so a
negative index wraps once and an index out of range raises `IndexError`
(`none`).  The loops advance monotonically, so the chosen fuel values
(`length - i + 1` for the rising loop, `i + length + 2` for the falling
loop) always cover every reachable iteration before the loop either stops
or raises. -/

/-- Rising scan of `_adjust_borders`: advance over spaces and newlines. -/
def adjStartGo (t : List Char) : Nat → Int → Option Int
  | 0, _ => none
  | fuel + 1, i =>
    match pyGet t i with
    | none => none
    | some c => if c = '\n' ∨ c = ' ' then adjStartGo t fuel (i + 1) else some i

/-- Adjusted `start` offset, or `none` for `IndexError`. -/
def adjStart (t : List Char) (i : Int) : Option Int :=
  adjStartGo t ((t.length : Int) - i + 1).toNat i

/-- Falling scan of `_adjust_borders`: retreat over newlines. -/
def adjEndGo (t : List Char) : Nat → Int → Option Int
  | 0, _ => none
  | fuel + 1, i =>
    match pyGet t i with
    | none => none
    | some c => if c = '\n' then adjEndGo t fuel (i - 1) else some i

/-- Adjusted `end` offset, or `none` for `IndexError`. -/
def adjEnd (t : List Char) (i : Int) : Option Int :=
  adjEndGo t (i + (t.length : Int) + 2).toNat i

/-- Adjust one annotation entry in place, as `_adjust_borders` does. -/
def adjustEntry (t : List Char) (r : Rng) : Option Rng :=
  match adjStart t r.start with
  | none => none
  | some s =>
    match adjEnd t r.stop with
    | none => none
    | some e => some ⟨r.name, s, e⟩

/-- Sequential adjustment of a list of entries; the first `IndexError`
aborts, as the Python exception would. -/
def adjustAll (t : List Char) : List Rng → Option (List Rng)
  | [] => some []
  | r :: rs =>
    match adjustEntry t r with
    | none => none
    | some r' =>
      match adjustAll t rs with
      | none => none
      | some rs' => some (r' :: rs')

/-- `OffsetsBuilder.build`: `_calculate`, then `_adjust_borders` over the
sections and the pages; `none` models an uncaught Python exception.  (The
Python method then serialises the result to JSON, which we do not model.) -/
def build (data : List Chunk) : Option AnnotatedText :=
  let st := calculate data
  match adjustAll st.alltext st.sections with
  | none => none
  | some secs =>
    match adjustAll st.alltext st.pages with
    | none => none
    | some pgs => some ⟨st.alltext, secs, pgs⟩

/-- Contiguity of a list of page ranges as claimed by the spec: each page's
start is the previous page's end plus one. -/
def pagesContiguous : List Rng → Bool
  | [] => true
  | [_] => true
  | p :: q :: rest => (q.start = p.stop + 1) && pagesContiguous (q :: rest)

/-! ## WikiParser configuration

As for the builder, the character classes below come from `config.ini`,
which is not in the sources; they are modelled from the spec (sections 4.1
and 9: BOM, double prime, tanwin fatha, LTR/RTL marks, quotation-mark
variants other than `"` and the guillemets, a bijective opener/closer map,
and quote-like self-paired delimiters). -/

/-- Byte-order mark, `U+FEFF`. -/
def bomChar : Char := Char.ofNat 0xFEFF

/-- Right-to-left mark, `U+200F`. -/
def rtlChar : Char := Char.ofNat 0x200F

/-- Left-to-right mark, `U+200E`. -/
def ltrChar : Char := Char.ofNat 0x200E

/-- Double prime, `U+2033` (OCR artifact). -/
def doublePrimeChar : Char := '″'

/-- Tanwin fatha, `U+06B4`, substituted for the double prime. -/
def tanwinFathaChar : Char := 'ڴ'

/-- Modelled from the spec: the quotation-mark variants normalised to `"`
(every variant except `"` itself and the guillemets). -/
def quotationMarks : List Char := ['‘', '’', '“', '”', '„']

/-- Modelled from the spec: the bijective opener-to-closer punctuation map. -/
def punctPairs : List (Char × Char) := [('(', ')'), ('[', ']'), ('«', '»')]

/-- Modelled from the spec: self-paired (quote-like) delimiters. -/
def punctEqual : List Char := ['"']

/-- Membership of a character among the paired closers. -/
def isClosing (c : Char) : Bool := punctPairs.any (fun p => p.2 = c)

/-- Membership of a character among the paired openers. -/
def isOpening (c : Char) : Bool := punctPairs.any (fun p => p.1 = c)

/-- Membership of a character among the self-paired delimiters. -/
def isEqualMark (c : Char) : Bool := punctEqual.contains c

/-- Lookup `_PUNCT_PAIRS[prev]`; only reached when `prev` is an opener. -/
def pairsClose (c : Char) : Char :=
  (((punctPairs.find? (fun p => p.1 = c)).map Prod.snd).getD c)

/-- Modelled from the spec: the wiki title pattern (a `==`-circumfixed
line, as in the source's "Expected format of titles" warning). -/
def titleMatch (l : List Char) : Bool :=
  4 ≤ l.length && startsWithL ['=', '='] l && startsWithL ['=', '='] l.reverse

/-! ## WikiParser sanitizer (`_cleaner`) -/

/-- Warnings printed to stderr by the parser, identified by their
parameters (page index, offending characters, section name). -/
inductive Warning where
  | malformedTitle (page : Nat)
  | bomRemoved (page : Nat)
  | doublePrime (page : Nat)
  | quotesNorm (page : Nat)
  | wawSep (page : Nat)
  | arabicZero (page : Nat)
  | openingMissing (page : Nat) (c : Char)
  | mismatch (page : Nat) (o : Char) (c : Char)
  | closingMissing (page : Nat) (c : Char)
  | noText (title : List Char) (sect : List Char)
deriving DecidableEq

/-- Python exceptions escaping the parser. -/
inductive PyErr where
  | valueError (page : Nat) (title : List Char)
  | ctorError
  | indexError
deriving DecidableEq

/-- Result of a Python call: a value or an uncaught exception. -/
inductive PyResult (α : Type) where
  | ok (v : α)
  | error (e : PyErr)
deriving DecidableEq

/-- Marker for the substring `' و"'` (space, waw, double quote), tested by
`' و\"' in li`: true when some position starts with the three-character
cluster. -/
def hasWaw : List Char → Bool
  | c :: d :: e :: rest => (c = ' ' && d = 'و' && e = '"') || hasWaw (d :: e :: rest)
  | _ => false

/-- Python `li.replace(' و\"', 'و \"')`: left-to-right, non-overlapping
replacement of the cluster, continuing after each replacement. -/
def wawReplace : List Char → List Char
  | c :: d :: e :: rest =>
    if c = ' ' && d = 'و' && e = '"' then 'و' :: ' ' :: '"' :: wawReplace rest
    else c :: wawReplace (d :: e :: rest)
  | l => l

/-- Worker for `re.sub(r'[\t ]+', ' ', li)`: the flag records whether the
scanner is inside a whitespace run whose single space is already emitted. -/
def collapseWsGo : Bool → List Char → List Char
  | _, [] => []
  | inRun, c :: rest =>
    if c = ' ' || c = '\t' then
      if inRun then collapseWsGo true rest else ' ' :: collapseWsGo true rest
    else c :: collapseWsGo false rest

/-- Collapse every run of spaces and tabs to a single space. -/
def collapseWs (l : List Char) : List Char := collapseWsGo false l

/-- One character of the punctuation-balance check: returns the new stack
(a cons-list whose head is the Python list's last element) and the warnings
emitted, in order. -/
def punctStep (i : Nat) (st : List (Nat × Char)) (c : Char) :
    List (Nat × Char) × List Warning :=
  if !(isEqualMark c) && !(isOpening c) && !(isClosing c) then (st, [])
  else if isClosing c then
    match st with
    | [] => ([], [.openingMissing i c])
    | (ip, prev) :: st' =>
      if isEqualMark prev then (st', [.openingMissing ip prev])
      else if isClosing prev then (st', [.openingMissing ip prev])
      else if pairsClose prev ≠ c then (st', [.mismatch i prev c])
      else (st', [])
  else if isEqualMark c then
    match st with
    | [] => ([(i, c)], [])
    | (ip, prev) :: st' =>
      if c = prev then (st', [])
      else ((i, c) :: (ip, prev) :: st', [])
  else ((i, c) :: st, [])

/-- The `for current in li` loop of the balance check. -/
def punctScan (i : Nat) (stack : List (Nat × Char)) (l : List Char) :
    List (Nat × Char) × List Warning :=
  l.foldl (fun acc c =>
    let r := punctStep i acc.1 c
    (r.1, acc.2 ++ r.2)) (stack, [])

/-- One iteration of `_cleaner`'s line loop: returns the line to append (or
`none` when the line is skipped), the warnings, and the updated punctuation
stack; `error` is the fatal page-info `ValueError`. -/
def cleanLine (i : Nat) (title : List Char) (stack : List (Nat × Char))
    (li : List Char) :
    PyResult (Option (List Char) × List Warning × List (Nat × Char)) :=
  if li = [rtlChar] ∨ li = [ltrChar] then .ok (none, [], stack)
  else if li = [] then .ok (some [], [], stack)
  else if startsWithL pagekw_input li then
    let pageinfo := pyStrip (li.drop pagekw_input.length)
    if pageAllowedMatch pageinfo then
      .ok (some (pagekw_out_open ++ pageinfo ++ pagekw_out_close), [], stack)
    else .error (.valueError i title)
  else
    let w1 : List Warning :=
      if li.contains '=' && !(startsWithL ['=', '='] li) then [.malformedTitle i] else []
    let p2 :=
      if li.contains bomChar then
        (li.filter (· != bomChar), [Warning.bomRemoved i])
      else (li, [])
    let p3 :=
      if p2.1.contains doublePrimeChar then
        (p2.1.map (fun c => if c = doublePrimeChar then tanwinFathaChar else c),
          [Warning.doublePrime i])
      else (p2.1, [])
    let li4 := p3.1.map (fun c => if quotationMarks.contains c then '"' else c)
    let w4 : List Warning := if li4 ≠ p3.1 then [.quotesNorm i] else []
    let p5 :=
      if hasWaw li4 then (wawReplace li4, [Warning.wawSep i]) else (li4, [])
    let w6 : List Warning := if p5.1.contains '٠' then [.arabicZero i] else []
    let out := collapseWs p5.1
    let p7 := punctScan i stack p5.1
    .ok (some out, w1 ++ p2.2 ++ p3.2 ++ w4 ++ p5.2 ++ w6 ++ p7.2, p7.1)

/-- The inner line loop of `_cleaner` over one page's lines, accumulating
the kept lines (`aux`), the warnings and the stack. -/
def cleanLines (i : Nat) (title : List Char) (stack : List (Nat × Char)) :
    List (List Char) →
      PyResult (List (List Char) × List Warning × List (Nat × Char))
  | [] => .ok ([], [], stack)
  | li :: rest =>
    match cleanLine i title stack li with
    | .error e => .error e
    | .ok (mo, ws, stack') =>
      match cleanLines i title stack' rest with
      | .error e => .error e
      | .ok (aux, ws2, stack'') =>
        .ok ((match mo with | some l => l :: aux | none => aux), ws ++ ws2, stack'')

/-- Outer loop of `_cleaner` over the page groups, threading the
document-wide stack. -/
def cleanerGo (title : List Char) (stack : List (Nat × Char)) :
    List (Nat × List (List Char)) →
      PyResult (List (Nat × List (List Char)) × List Warning × List (Nat × Char))
  | [] => .ok ([], [], stack)
  | (i, lines) :: rest =>
    match cleanLines i title stack lines with
    | .error e => .error e
    | .ok (aux, ws, stack') =>
      match cleanerGo title stack' rest with
      | .error e => .error e
      | .ok (out, ws2, stack'') => .ok ((i, aux) :: out, ws ++ ws2, stack'')

/-- `WikiParser._cleaner`: clean all groups, then warn once for every entry
left on the punctuation stack (in Python insertion order, which is the
reverse of our cons-stack). -/
def cleaner (title : List Char) (groups : List (Nat × List (List Char))) :
    PyResult (List (Nat × List (List Char)) × List Warning) :=
  match cleanerGo title [] groups with
  | .error e => .error e
  | .ok (out, ws, stack) =>
    .ok (out, ws ++ stack.reverse.map (fun p => Warning.closingMissing p.1 p.2))

/-! ## util.striplines -/

/-- Maximal runs of equal elements, as `itertools.groupby` without a key
function produces them; each run is returned as its first element paired
with the remaining members. -/
def runs : List (List Char) → List (List Char × List (List Char))
  | [] => []
  | a :: as =>
    match runs as with
    | [] => [(a, [])]
    | (b, bs) :: gs => if a = b then (a, b :: bs) :: gs else (a, []) :: (b, bs) :: gs

/-- Python `not any(l.strip() for l in group)`: the run holds only strings
that strip to the empty string. -/
def runBlank (g : List Char × List (List Char)) : Bool :=
  (g.1 :: g.2).all (fun l => (pyStrip l).isEmpty)

/-- `util.striplines`: strip every line, group equal adjacent lines, drop a
leading and a trailing all-blank run, and yield each run's first element.
`lines[0]` / `lines[-1]` on an empty group list raise `IndexError`
(`none`). -/
def striplines (lines : List (List Char)) : Option (List (List Char)) :=
  match runs (lines.map pyStrip) with
  | [] => none
  | g0 :: rest =>
    let gs1 := if runBlank g0 then rest else g0 :: rest
    match gs1.getLast? with
    | none => none
    | some gl =>
      let gs2 := if runBlank gl then gs1.dropLast else gs1
      some (gs2.map Prod.fst)

/-! ## WikiParser.parse -/

/-- Python `str.splitlines` over the line terminators `\r\n`, `\r`, `\n`;
a terminator at the very end does not open a final empty line. -/
def splitLinesGo (cur : List Char) : List Char → List (List Char)
  | [] => [cur.reverse]
  | '\r' :: '\n' :: rest =>
    cur.reverse :: (match rest with | [] => [] | _ :: _ => splitLinesGo [] rest)
  | '\n' :: rest =>
    cur.reverse :: (match rest with | [] => [] | _ :: _ => splitLinesGo [] rest)
  | '\r' :: rest =>
    cur.reverse :: (match rest with | [] => [] | _ :: _ => splitLinesGo [] rest)
  | c :: rest => splitLinesGo (c :: cur) rest

/-- Python `str.splitlines` (the empty string yields no lines). -/
def splitLines : List Char → List (List Char)
  | [] => []
  | c :: rest => splitLinesGo [] (c :: rest)

/-- `enumerate(xs, 1)`. -/
def enumFrom (i : Nat) : List α → List (Nat × α)
  | [] => []
  | a :: as => (i, a) :: enumFrom (i + 1) as

/-- A run of the `itertools.groupby(lines, _title_pattern.match)` grouping
in `parse`.  The key function returns a fresh match object per title line
and `None` otherwise, and Python compares the keys with `==`, which is
identity for match objects: consecutive `None`-keyed lines share one run,
while every title line forms a singleton run of its own. -/
inductive TGroup where
  | title (line : List Char)
  | body (lines : List (List Char))
deriving DecidableEq

/-- The lines held by a grouping run. -/
def tgroupLines : TGroup → List (List Char)
  | .title l => [l]
  | .body ls => ls

/-- Group the flattened line stream by the title predicate with the
identity-key semantics described at `TGroup`. -/
def groupTitles : List (List Char) → List TGroup
  | [] => []
  | l :: rest =>
    if titleMatch l then .title l :: groupTitles rest
    else
      match groupTitles rest with
      | .body g :: gs => .body (l :: g) :: gs
      | gs => .body [l] :: gs

/-- `WikiParser._join_titletext`: pair every title run with the following
run's lines (whatever its kind, as the Python index walk does); a trailing
title gets a "no text in section" warning and an empty body (Python yields
the empty string, whose iteration is empty, modelled as `[]`). -/
def joinTitletext (title : List Char) :
    List TGroup → List (Option (List Char) × List (List Char)) × List Warning
  | [] => ([], [])
  | .body g :: rest =>
    let r := joinTitletext title rest
    ((none, g) :: r.1, r.2)
  | .title t :: rest =>
    let sec := pyStripChars ['=', ' '] t
    match rest with
    | [] => ([(some sec, [])], [.noText title sec])
    | g :: rest' =>
      let r := joinTitletext title rest'
      ((some sec, tgroupLines g) :: r.1, r.2)

/-- `' '.join(xs)`. -/
def joinSpace : List (List Char) → List Char
  | [] => []
  | [l] => l
  | l :: rest => l ++ ' ' :: joinSpace rest

/-- Sequential `Option`-valued map; the first failure aborts, like the
first exception raised inside a Python list comprehension. -/
def omap (f : α → Option β) : List α → Option (List β)
  | [] => some []
  | a :: as =>
    match f a with
    | none => none
    | some b =>
      match omap f as with
      | none => none
      | some bs => some (b :: bs)

/-- Build one output chunk of `parse` from a `(section, lines)` pair:
re-strip the body, encode interior empty lines as `"\n"`, join with single
spaces. -/
def chunkOfPair (p : Option (List Char) × List (List Char)) : Option Chunk :=
  match striplines p.2 with
  | none => none
  | some st => some ⟨p.1, joinSpace (st.map (fun t => if t = [] then ['\n'] else t))⟩

/-- `WikiParser.parse` (including the constructor's validation): split the
raw pages into enumerated line groups, clean them, strip blank runs per
page, flatten, group by titles, pair titles with bodies, and emit the chunk
sequence.  Uncaught exceptions are returned as `error`. -/
def parse (rawtexts : List (List Char)) (title : List Char) :
    PyResult (List Chunk × List Warning) :=
  if rawtexts = [] ∨ title = [] then .error .ctorError
  else
    match cleaner title (enumFrom 1 (rawtexts.map splitLines)) with
    | .error e => .error e
    | .ok (groups2, ws) =>
      match omap (fun p => (striplines p.2).map (fun ls => (p.1, ls)))
          groups2 with
      | none => .error .indexError
      | some grlines =>
        let lines := (grlines.map Prod.snd).flatten
        let jt := joinTitletext title (groupTitles lines)
        match omap chunkOfPair jt.1 with
        | none => .error .indexError
        | some chunks => .ok (chunks, ws ++ jt.2)

/-! ## Predicates used by the claim statements -/

/-- The spec's range invariant `0 <= start <= end <= len(text) - 1`. -/
def rngWithin (len : Nat) (r : Rng) : Bool :=
  0 ≤ r.start && r.start ≤ r.stop && r.stop ≤ (len : Int) - 1

/-- Warnings that report document structure rather than a modification of
the line's text (malformed title, Arabic zero, punctuation balance). -/
def structuralWarning : Warning → Bool
  | .malformedTitle _ => true
  | .arabicZero _ => true
  | .openingMissing _ _ => true
  | .mismatch _ _ _ => true
  | .closingMissing _ _ => true
  | _ => false

/-- Marker for two adjacent plain spaces. -/
def hasDoubleSpace : List Char → Bool
  | c :: d :: rest => (c = ' ' && d = ' ') || hasDoubleSpace (d :: rest)
  | _ => false

/-- A line free of the artifacts the sanitizer rewrites: no BOM, no double
prime, no quotation-mark variant, no tab, no run of two spaces, and no
space-waw-quote cluster. -/
def lineClean (li : List Char) : Bool :=
  !(li.contains bomChar) && !(li.contains doublePrimeChar) &&
    quotationMarks.all (fun q => !(li.contains q)) &&
    !(li.contains '\t') && !(hasDoubleSpace li) && !(hasWaw li)

/-- A chunk for which the border adjustment provably succeeds: a truthy
section and marker-free non-empty text that neither starts with a space or
newline nor ends with a newline. -/
def chunkSafe (ch : Chunk) : Bool :=
  sectTruthy ch.sect && (findMarkers ch.text).isEmpty && !ch.text.isEmpty &&
    (match ch.text.head? with
     | some c => !(c = ' ' || c = '\n')
     | none => false) &&
    (match ch.text.getLast? with
     | some c => !(c = '\n')
     | none => false)

/-- Invariant of the `_calculate` state: no page is emitted before a marker
is seen, and `my_last_end` equals the end of the last emitted page. -/
def calcInv (st : CalcSt) : Prop :=
  (st.isPageStart = false → st.pages = []) ∧
    (∀ r, st.pages.getLast? = some r → st.myLastEnd = r.stop)

/-- A range on which the border adjustment provably terminates in place:
non-negative offsets, a non-separator character at `start`, a newline at
`stop` and a non-newline immediately before it. -/
def rngGood (t : List Char) (r : Rng) : Prop :=
  0 ≤ r.start ∧ 1 ≤ r.stop ∧
    (∃ c, pyGet t r.start = some c ∧ ¬(c = '\n' ∨ c = ' ')) ∧
    pyGet t r.stop = some '\n' ∧
    (∃ c, pyGet t (r.stop - 1) = some c ∧ c ≠ '\n')

/-- Invariant of the `_calculate` state on marker-free sectioned input: no
pages, pivot tracks the text length, and every section is adjustable. -/
def buildInv (st : CalcSt) : Prop :=
  st.pages = [] ∧ st.isPageStart = false ∧ (st.pivot : Int) = st.alltext.length ∧
    ∀ r ∈ st.sections, rngGood st.alltext r

end WikiExport

/-! ## Claim theorems: concrete evaluations

Every concrete input below is a well-formed chunk sequence or raw document
in the sense of the spec; the evaluations are decided by computing the
embedded functions. -/

/-- Claim C2, counterexample.  On the spec's scenario-2 input the builder
returns `pages = [(name "1", start 1, end 4)]`, not the claimed
`[(name "1", start 0, end 4)]`: the single page's start is
`my_last_end + 1 = 1`, so the claim is false on the code. -/
theorem C2_counterexample :
    (WikiExport.build [⟨some "Intro".toList, "PAGE1EGAP hello".toList⟩]).map
        WikiExport.AnnotatedText.pages = some [⟨['1'], 1, 4⟩] ∧
      some [(⟨['1'], 1, 4⟩ : WikiExport.Rng)] ≠ some [⟨['1'], 0, 4⟩] := by
  decide

/-- Claim C2, amended.  For the input chunk `(section "Intro", text
"PAGE1EGAP hello")`, `OffsetsBuilder.build` returns text `"hello\n"`,
sections `[(name "Intro", start 0, end 4)]` and pages
`[(name "1", start 1, end 4)]`: the page's start is 1 (the builder seeds
`my_last_end` with 0 and emits the final page at `my_last_end + 1`), the
other two outputs are as the claim states. -/
theorem C2_amended :
    WikiExport.build [⟨some "Intro".toList, "PAGE1EGAP hello".toList⟩] =
      some ⟨"hello\n".toList, [⟨"Intro".toList, 0, 4⟩], [⟨['1'], 1, 4⟩]⟩ := by
  decide

/-- Claim C1, counterexample.  Three chunks with one marker each produce
three page ranges `(0,2), (2,4), (5,5)`: the second page's start equals
the first page's end (a one-character overlap), not end + 1, so the
contiguity claim fails for an input yielding at least two page ranges. -/
theorem C1_counterexample :
    (WikiExport.build [⟨none, "aPAGE1EGAP b".toList⟩, ⟨none, "cPAGE2EGAP d".toList⟩,
        ⟨none, "ePAGE3EGAP f".toList⟩]).map WikiExport.AnnotatedText.pages =
      some [⟨['1'], 0, 2⟩, ⟨['2'], 2, 4⟩, ⟨['3'], 5, 5⟩] ∧
    WikiExport.pagesContiguous [⟨['1'], 0, 2⟩, ⟨['2'], 2, 4⟩, ⟨['3'], 5, 5⟩] = false := by
  decide

/-- Claim C3, counterexample.  The well-formed chunk `(section "A", text
"")` makes `_adjust_borders` walk the start offset past the end of the one
character text `"\n"`, raising `IndexError`: `build` does not return. -/
theorem C3_counterexample :
    WikiExport.build [⟨some ['A'], []⟩] = none := by decide

/-- Claim C5, counterexample.  On two marker-only chunks `build` succeeds
and returns the page range `(name "1", start 0, end -1)`, which violates
`0 <= start <= end <= len(text) - 1`. -/
theorem C5_counterexample :
    WikiExport.build [⟨none, "PAGE1EGAP".toList⟩, ⟨none, "PAGE2EGAPx".toList⟩] =
      some ⟨['x'], [], [⟨['1'], 0, -1⟩, ⟨['2'], 0, 0⟩]⟩ ∧
    WikiExport.rngWithin 1 ⟨['1'], 0, -1⟩ = false := by decide

/-- Claim C4.  On the document `"hello\n== Title =="`, whose sanitized
line stream ends with a title run with no following body,
`_join_titletext` does emit the "no text in section" warning and yields an
empty body, but `parse` then calls `util.striplines` on that empty body,
which evaluates `lines[0]` on an empty list and raises `IndexError`:
`parse` does not return a chunk. -/
theorem C4_thm :
    WikiExport.parse ["hello\n== Title ==".toList] "doc".toList =
        .error .indexError ∧
      (WikiExport.joinTitletext "doc".toList
          (WikiExport.groupTitles ["hello".toList, "== Title ==".toList])).2 =
        [.noText "doc".toList "Title".toList] ∧
      (WikiExport.joinTitletext "doc".toList
          (WikiExport.groupTitles ["hello".toList, "== Title ==".toList])).1 =
        [(none, ["hello".toList]), (some "Title".toList, [])] := by
  decide

/-- Claim C7, counterexample.  The line `x و"y` is free of BOM, double
prime, quotation-mark variants and runs of extra whitespace, yet the
sanitizer changes it (to `xو "y`) and emits a warning, so the claim's
"returns it unchanged and emits no warnings" fails. -/
theorem C7_counterexample :
    (['x', ' ', 'و', '"', 'y'] : List Char).contains WikiExport.bomChar = false ∧
      (['x', ' ', 'و', '"', 'y'] : List Char).contains WikiExport.doublePrimeChar = false ∧
      WikiExport.quotationMarks.all
        (fun q => !((['x', ' ', 'و', '"', 'y'] : List Char).contains q)) = true ∧
      (['x', ' ', 'و', '"', 'y'] : List Char).contains '\t' = false ∧
      WikiExport.hasDoubleSpace ['x', ' ', 'و', '"', 'y'] = false ∧
      WikiExport.cleanLine 1 "t".toList [] ['x', ' ', 'و', '"', 'y'] =
        .ok (some ['x', 'و', ' ', '"', 'y'], [.wawSep 1], [(1, '"')]) ∧
      (['x', 'و', ' ', '"', 'y'] : List Char) ≠ ['x', ' ', 'و', '"', 'y'] := by
  decide

/-- Claim C8, counterexample.  In the line `و"a` a waw is immediately
followed by an opening quote with no separating space, yet the sanitizer
leaves the line unchanged and emits no warning (the replacement only fires
on the three-character cluster space-waw-quote), so the claim is false. -/
theorem C8_counterexample :
    WikiExport.cleanLine 1 "t".toList [] ['و', '"', 'a'] =
      .ok (some ['و', '"', 'a'], [], [(1, '"')]) := by
  decide

/-! ## Sanitizer branch lemmas (shared helpers) -/

/-- A line that does not start with the page keyword can never hit the
fatal branch: every other path of `cleanLine` returns `ok`. -/
theorem cleanLine_ok (i : Nat) (title : List Char) (stack : List (Nat × Char))
    (li : List Char) (h : WikiExport.startsWithL WikiExport.pagekw_input li = false) :
    ∃ v, WikiExport.cleanLine i title stack li = .ok v := by
  unfold WikiExport.cleanLine
  split
  · exact ⟨_, rfl⟩
  · split
    · exact ⟨_, rfl⟩
    · split
      · simp_all
      · exact ⟨_, rfl⟩

/-- A page-keyword line whose stripped remainder fails the allowed page
pattern raises the fatal `ValueError` naming the page index and title. -/
theorem cleanLine_pagekw_error (i : Nat) (title : List Char)
    (stack : List (Nat × Char)) (rest : List Char)
    (h : WikiExport.pageAllowedMatch (WikiExport.pyStrip rest) = false) :
    WikiExport.cleanLine i title stack (WikiExport.pagekw_input ++ rest) =
      .error (.valueError i title) := by
  unfold WikiExport.cleanLine
  rw [if_neg (by simp [WikiExport.pagekw_input, WikiExport.rtlChar, WikiExport.ltrChar])]
  rw [if_neg (by simp [WikiExport.pagekw_input])]
  rw [if_pos (by simp [WikiExport.startsWithL, WikiExport.dropLit, WikiExport.pagekw_input])]
  rw [List.drop_left]
  rw [if_neg (by simp [h])]

/-- The inner line loop succeeds when no line starts with the page
keyword. -/
theorem cleanLines_ok (i : Nat) (title : List Char) :
    ∀ (lines : List (List Char)) (stack : List (Nat × Char)),
      (∀ li ∈ lines, WikiExport.startsWithL WikiExport.pagekw_input li = false) →
      ∃ v, WikiExport.cleanLines i title stack lines = .ok v := by
  intro lines
  induction lines with
  | nil => exact fun stack _ => ⟨_, rfl⟩
  | cons li rest ih =>
    intro stack h
    obtain ⟨⟨mo, ws, stack'⟩, hv⟩ :=
      cleanLine_ok i title stack li (h li (List.mem_cons_self li rest))
    obtain ⟨⟨aux, ws2, stack''⟩, hrest⟩ :=
      ih stack' (fun l hl => h l (List.mem_cons_of_mem li hl))
    cases mo with
    | none =>
      refine ⟨(aux, ws ++ ws2, stack''), ?_⟩
      simp only [WikiExport.cleanLines, hv, hrest]
    | some l =>
      refine ⟨(l :: aux, ws ++ ws2, stack''), ?_⟩
      simp only [WikiExport.cleanLines, hv, hrest]

/-- The group loop of `_cleaner` succeeds when no line of any group starts
with the page keyword. -/
theorem cleanerGo_ok (title : List Char) :
    ∀ (groups : List (Nat × List (List Char))) (stack : List (Nat × Char)),
      (∀ p ∈ groups, ∀ li ∈ p.2, WikiExport.startsWithL WikiExport.pagekw_input li = false) →
      ∃ v, WikiExport.cleanerGo title stack groups = .ok v := by
  intro groups
  induction groups with
  | nil => exact fun stack _ => ⟨_, rfl⟩
  | cons p rest ih =>
    intro stack h
    obtain ⟨i, lines⟩ := p
    obtain ⟨⟨aux, ws, stack'⟩, hv⟩ :=
      cleanLines_ok i title lines stack
        (fun li hli => h (i, lines) (List.mem_cons_self _ _) li hli)
    obtain ⟨⟨out, ws2, stack''⟩, hrest⟩ :=
      ih stack' (fun q hq li hli => h q (List.mem_cons_of_mem _ hq) li hli)
    refine ⟨((i, aux) :: out, ws ++ ws2, stack''), ?_⟩
    simp only [WikiExport.cleanerGo, hv, hrest]

/-- Claim C6.  A page line whose remainder fails the allowed page-info
pattern makes `_cleaner` raise the fatal `ValueError` naming the page
index and the document title; a line not starting with the page keyword
never raises: every other sanitizer condition warns and continues. -/
theorem C6_thm :
    (∀ (i : Nat) (title : List Char) (stack : List (Nat × Char)) (rest : List Char),
        WikiExport.pageAllowedMatch (WikiExport.pyStrip rest) = false →
        WikiExport.cleanLine i title stack (WikiExport.pagekw_input ++ rest) =
          .error (.valueError i title)) ∧
      (∀ (i : Nat) (title : List Char) (stack : List (Nat × Char)) (li : List Char),
        WikiExport.startsWithL WikiExport.pagekw_input li = false →
        ∃ v, WikiExport.cleanLine i title stack li = .ok v) :=
  ⟨fun i title stack rest h => cleanLine_pagekw_error i title stack rest h,
    fun i title stack li h => cleanLine_ok i title stack li h⟩

/-- Witness for C6 at the spec's concrete malformed marker "PAGEabcEGAP"
on page 3 of scan "scan". -/
theorem C6_witness :
    WikiExport.cleanLine 3 "scan".toList [] (WikiExport.pagekw_input ++ "abcEGAP".toList) =
      .error (.valueError 3 "scan".toList) :=
  C6_thm.1 3 "scan".toList [] "abcEGAP".toList (by decide)

/-- Claim C9.  Unbalanced punctuation never raises (a document with no
page-keyword line always cleans to `ok`), and the concrete document
`"(abc"` yields exactly one "closing character missing" warning — emitted
at end of document for the one entry left on the punctuation stack — and
no exception. -/
theorem C9_thm :
    (∀ (title : List Char) (groups : List (Nat × List (List Char))),
        (∀ p ∈ groups, ∀ li ∈ p.2,
          WikiExport.startsWithL WikiExport.pagekw_input li = false) →
        ∃ v, WikiExport.cleaner title groups = .ok v) ∧
      WikiExport.cleaner "t".toList [(1, ["(abc".toList])] =
        .ok ([(1, ["(abc".toList])], [.closingMissing 1 '(']) := by
  constructor
  · intro title groups h
    obtain ⟨⟨out, ws, stack⟩, hv⟩ := cleanerGo_ok title groups [] h
    exact ⟨_, by rw [WikiExport.cleaner, hv]⟩
  · decide

/-- Witness for C9 on a two-page document with unbalanced punctuation and
no page-keyword line. -/
theorem C9_witness :
    ∃ v, WikiExport.cleaner "t".toList
        [(1, ["(a".toList, "]b".toList]), (2, ["\"c".toList])] = .ok v :=
  C9_thm.1 "t".toList [(1, ["(a".toList, "]b".toList]), (2, ["\"c".toList])]
    (by decide)

/-! ## striplines lemmas -/

/-- Adjacent runs produced by `runs` have distinct representatives. -/
theorem runs_chain (l : List (List Char)) :
    List.Chain' (fun g h : List Char × List (List Char) => g.1 ≠ h.1)
      (WikiExport.runs l) := by
  induction l with
  | nil => simp [WikiExport.runs]
  | cons a as ih =>
    cases hr : WikiExport.runs as with
    | nil => simp [WikiExport.runs, hr]
    | cons g gs =>
      obtain ⟨b, bs⟩ := g
      rw [hr] at ih
      simp only [WikiExport.runs, hr]
      by_cases hab : a = b
      · subst hab
        rw [if_pos rfl]
        rw [List.chain'_cons'] at ih ⊢
        exact ⟨ih.1, ih.2⟩
      · rw [if_neg hab]
        rw [List.chain'_cons']
        refine ⟨?_, ih⟩
        intro q hq
        simp only [List.head?_cons, Option.mem_def, Option.some.injEq] at hq
        subst hq
        exact hab

/-- Claim C10.  `util.striplines` collapses every run of adjacent equal
(stripped) lines to a single line: whenever it returns, no two consecutive
output lines are equal, and in particular runs of duplicate non-empty
lines are deduplicated, not only blank runs. -/
theorem C10_thm :
    (∀ (lines out : List (List Char)), WikiExport.striplines lines = some out →
        out.Chain' (· ≠ ·)) ∧
      WikiExport.striplines ["a".toList, "a".toList, "b".toList] =
        some ["a".toList, "b".toList] ∧
      WikiExport.striplines [[], [], "a".toList, "b".toList, [], "c".toList, [], [],
          "d".toList, []] =
        some ["a".toList, "b".toList, [], "c".toList, [], "d".toList] := by
  refine ⟨?_, by decide, by decide⟩
  intro lines out h
  have hc := runs_chain (lines.map WikiExport.pyStrip)
  unfold WikiExport.striplines at h
  cases hr : WikiExport.runs (lines.map WikiExport.pyStrip) with
  | nil => rw [hr] at h; exact absurd h (by simp)
  | cons g0 rest =>
    rw [hr] at hc
    simp only [hr] at h
    have hc1 : List.Chain' (fun g h : List Char × List (List Char) => g.1 ≠ h.1)
        (if WikiExport.runBlank g0 then rest else g0 :: rest) := by
      split
      · exact hc.tail
      · exact hc
    cases hl : (if WikiExport.runBlank g0 then rest else g0 :: rest).getLast? with
    | none => simp only [hl] at h; cases h
    | some gl =>
      simp only [hl] at h
      have hc2 : List.Chain' (fun g h : List Char × List (List Char) => g.1 ≠ h.1)
          (if WikiExport.runBlank gl
            then (if WikiExport.runBlank g0 then rest else g0 :: rest).dropLast
            else (if WikiExport.runBlank g0 then rest else g0 :: rest)) := by
      -- placeholder
        split
        · exact hc1.prefix (List.dropLast_prefix _)
        · exact hc1
      have hout : out =
          (if WikiExport.runBlank gl
            then (if WikiExport.runBlank g0 then rest else g0 :: rest).dropLast
            else (if WikiExport.runBlank g0 then rest else g0 :: rest)).map Prod.fst := by
        simpa using h.symm
      subst hout
      rw [List.chain'_map]
      exact hc2

/-- Witness for C10: the collapsed output of a duplicated line list has no
adjacent duplicates. -/
theorem C10_witness : (["x".toList, "y".toList] : List (List Char)).Chain' (· ≠ ·) :=
  C10_thm.1 ["x".toList, "x".toList, "y".toList] ["x".toList, "y".toList] (by decide)

/-! ## Per-line transform identity lemmas -/

/-- Without the space-waw-quote cluster, the waw replacement is the
identity. -/
theorem wawReplace_id : ∀ li : List Char, WikiExport.hasWaw li = false →
    WikiExport.wawReplace li = li
  | [] => fun _ => rfl
  | [_] => fun _ => rfl
  | [_, _] => fun _ => rfl
  | c :: d :: e :: rest => fun h => by
    rw [WikiExport.hasWaw] at h
    rw [WikiExport.wawReplace]
    rw [Bool.or_eq_false_iff] at h
    rw [if_neg (by simp [h.1])]
    rw [wawReplace_id (d :: e :: rest) h.2]

/-- Quotation-mark normalisation is the identity on a line containing no
variant. -/
theorem mapQuotes_id : ∀ li : List Char, (∀ q ∈ WikiExport.quotationMarks, q ∉ li) →
    li.map (fun c => if WikiExport.quotationMarks.contains c then '"' else c) = li := by
  intro li
  induction li with
  | nil => intro _; rfl
  | cons c rest ih =>
    intro h
    have hc : c ∉ WikiExport.quotationMarks :=
      fun hmem => h c hmem (List.mem_cons_self c rest)
    rw [List.map_cons, if_neg (by simp [hc]),
      ih (fun q hq hmem => h q hq (List.mem_cons_of_mem c hmem))]

/-- Whitespace collapsing is the identity on a line with no tab and no two
adjacent spaces; outside a run it never changes the head, and inside a run
it is still the identity when the head is not a space. -/
theorem collapseWsGo_id : ∀ li : List Char, li.contains '\t' = false →
    WikiExport.hasDoubleSpace li = false →
    (WikiExport.collapseWsGo false li = li ∧
      (li.head? ≠ some ' ' → WikiExport.collapseWsGo true li = li)) := by
  intro li
  induction li with
  | nil => intro _ _; exact ⟨rfl, fun _ => rfl⟩
  | cons c rest ih =>
    intro ht hd
    simp only [List.contains_cons, Bool.or_eq_false_iff] at ht
    have hcne : ¬ c = '\t' := by
      intro hh
      rw [hh] at ht
      simp at ht
    have htr : rest.contains '\t' = false := ht.2
    have hdr : WikiExport.hasDoubleSpace rest = false := by
      cases rest with
      | nil => rfl
      | cons d rest' =>
        rw [WikiExport.hasDoubleSpace, Bool.or_eq_false_iff] at hd
        exact hd.2
    obtain ⟨ih1, ih2⟩ := ih htr hdr
    by_cases hsp : c = ' '
    · subst hsp
      have hheadr : rest.head? ≠ some ' ' := by
        cases rest with
        | nil => simp
        | cons d rest' =>
          rw [WikiExport.hasDoubleSpace, Bool.or_eq_false_iff] at hd
          intro hh
          simp only [List.head?_cons, Option.some.injEq] at hh
          subst hh
          simp at hd
      constructor
      · rw [WikiExport.collapseWsGo, if_pos (by simp), if_neg (by simp),
          ih2 hheadr]
      · intro hh
        simp at hh
    · constructor
      · rw [WikiExport.collapseWsGo, if_neg (by simp [hsp, hcne])]
        rw [ih1]
      · intro _
        rw [WikiExport.collapseWsGo, if_neg (by simp [hsp, hcne])]
        rw [ih1]

/-- Every warning emitted by one step of the balance check reports
punctuation structure. -/
theorem punctStep_structural (i : Nat) (st : List (Nat × Char)) (c : Char) :
    ∀ w ∈ (WikiExport.punctStep i st c).2, WikiExport.structuralWarning w = true := by
  intro w hw
  unfold WikiExport.punctStep at hw
  repeat' split at hw
  all_goals simp_all [WikiExport.structuralWarning]

/-- Every warning emitted by the whole balance scan of a line reports
punctuation structure. -/
theorem punctScan_structural (i : Nat) :
    ∀ (l : List Char) (st : List (Nat × Char)) (acc : List WikiExport.Warning),
      (∀ w ∈ acc, WikiExport.structuralWarning w = true) →
      ∀ w ∈ (l.foldl (fun acc c =>
          let r := WikiExport.punctStep i acc.1 c
          (r.1, acc.2 ++ r.2)) (st, acc)).2,
        WikiExport.structuralWarning w = true := by
  intro l
  induction l with
  | nil => exact fun st acc hacc w hw => hacc w hw
  | cons c rest ih =>
    intro st acc hacc w hw
    rw [List.foldl_cons] at hw
    refine ih (WikiExport.punctStep i st c).1 (acc ++ (WikiExport.punctStep i st c).2)
      ?_ w hw
    intro u hu
    rcases List.mem_append.mp hu with h1 | h2
    · exact hacc u h1
    · exact punctStep_structural i st c u h2

/-- Claim C7, amended.  Sanitizing a line free of BOM, double prime,
quotation-mark variants, tabs, space runs and the space-waw-quote cluster
(and that is not a directionality-only or page-keyword line) returns the
line unchanged; the only warnings it may emit are structural ones
(malformed title, Arabic zero, punctuation balance), never a modification
warning. -/
theorem C7_amended :
    ∀ (i : Nat) (title : List Char) (stack : List (Nat × Char)) (li : List Char),
      li ≠ [WikiExport.rtlChar] → li ≠ [WikiExport.ltrChar] →
      WikiExport.startsWithL WikiExport.pagekw_input li = false →
      WikiExport.lineClean li = true →
      ∃ ws stack',
        WikiExport.cleanLine i title stack li = .ok (some li, ws, stack') ∧
          ws.all WikiExport.structuralWarning = true := by
  intro i title stack li h1 h2 h3 hclean
  simp only [WikiExport.lineClean, Bool.and_eq_true, Bool.not_eq_true'] at hclean
  obtain ⟨⟨⟨⟨⟨hbom, hdp⟩, hqm⟩, htab⟩, hdsp⟩, hwaw⟩ := hclean
  have hq : ∀ q ∈ WikiExport.quotationMarks, q ∉ li := by
    intro q hqq hmem
    have hh := List.all_eq_true.mp hqm q hqq
    simp only [Bool.not_eq_true'] at hh
    simp [hmem] at hh
  have hmapq := mapQuotes_id li hq
  have hcw := (collapseWsGo_id li htab hdsp).1
  by_cases hnil : li = []
  · subst hnil
    exact ⟨[], stack, by rw [WikiExport.cleanLine]; simp, rfl⟩
  · have key : WikiExport.cleanLine i title stack li =
        .ok (some li,
          ((if li.contains '=' && !(WikiExport.startsWithL ['=', '='] li)
              then [WikiExport.Warning.malformedTitle i] else []) ++
            (if li.contains '٠' then [WikiExport.Warning.arabicZero i] else [])) ++
            (WikiExport.punctScan i stack li).2,
          (WikiExport.punctScan i stack li).1) := by
      rw [WikiExport.cleanLine]
      rw [if_neg (by push_neg; exact ⟨h1, h2⟩)]
      rw [if_neg hnil, if_neg (by simp [h3])]
      simp only [hbom, hdp, Bool.false_eq_true, if_false, hmapq, hwaw, ne_eq,
        not_true_eq_false, WikiExport.collapseWs, hcw, List.append_nil,
        List.nil_append]
    refine ⟨_, _, key, ?_⟩
    rw [List.all_eq_true]
    intro w hw
    rcases List.mem_append.mp hw with hone | htwo
    · rcases List.mem_append.mp hone with ha | hb
      · split at ha <;> simp_all [WikiExport.structuralWarning]
      · split at hb <;> simp_all [WikiExport.structuralWarning]
    · exact punctScan_structural i li stack [] (by simp) w htwo

/-- Witness for C7 on a plain line. -/
theorem C7_witness :
    ∃ ws stack',
      WikiExport.cleanLine 1 "t".toList [] "abc".toList =
          .ok (some "abc".toList, ws, stack') ∧
        ws.all WikiExport.structuralWarning = true :=
  C7_amended 1 "t".toList [] "abc".toList (by decide) (by decide) (by decide)
    (by decide)

/-- Claim C8, amended.  The waw step acts only on the three-character
cluster space-waw-quote, moving the preceding space between the waw and
the quote (with a warning); a line without the cluster is left unchanged
by this step, and in particular a waw-quote pair not preceded by a space
is not touched. -/
theorem C8_amended :
    (∀ li : List Char, WikiExport.hasWaw li = false →
        WikiExport.wawReplace li = li) ∧
      WikiExport.cleanLine 1 "t".toList [] ['x', ' ', 'و', '"', 'y'] =
        .ok (some ['x', 'و', ' ', '"', 'y'], [.wawSep 1], [(1, '"')]) ∧
      WikiExport.wawReplace [' ', 'و', '"', 'a'] = ['و', ' ', '"', 'a'] :=
  ⟨wawReplace_id, by decide, by decide⟩

/-- Witness for C8 on a cluster-free line. -/
theorem C8_witness : WikiExport.wawReplace "abc".toList = "abc".toList :=
  C8_amended.1 "abc".toList (by decide)

/-! ## Page bookkeeping invariant of `_calculate` -/

/-- The inner marker loop preserves the page bookkeeping invariant. -/
theorem calcMarkers_inv (text : List Char) :
    ∀ (ms : List (Nat × Nat × List Char)) (st : WikiExport.CalcSt) (cur gaps : Nat),
      WikiExport.calcInv st →
      WikiExport.calcInv (WikiExport.calcMarkers text ms st cur gaps).1 := by
  intro ms
  induction ms with
  | nil => intro st cur gaps h; exact h
  | cons m rest ih =>
    obtain ⟨ms1, me1, info⟩ := m
    intro st cur gaps h
    rw [WikiExport.calcMarkers]
    apply ih
    by_cases hps : st.isPageStart = true
    · constructor
      · intro hfalse
        simp at hfalse
      · intro r hr
        simp only [hps, if_true] at hr ⊢
        rw [List.getLast?_concat] at hr
        injection hr with hr
        subst hr
        rfl
    · constructor
      · intro hfalse
        simp at hfalse
      · intro r hr
        simp only [hps, if_false] at hr ⊢
        exact h.2 r hr

/-- One chunk of the outer loop preserves the page bookkeeping
invariant. -/
theorem calcChunk_inv (st : WikiExport.CalcSt) (chunk : WikiExport.Chunk)
    (h : WikiExport.calcInv st) : WikiExport.calcInv (WikiExport.calcChunk st chunk) := by
  have h1 := calcMarkers_inv chunk.text (WikiExport.findMarkers chunk.text) st 0 0 h
  rcases hr : WikiExport.calcMarkers chunk.text (WikiExport.findMarkers chunk.text) st 0 0
    with ⟨st1, current, gaps⟩
  rw [hr] at h1
  simp only [WikiExport.calcChunk, hr]
  split
  · exact ⟨fun hf => h1.1 hf, fun r hrr => h1.2 r hrr⟩
  · exact ⟨fun hf => h1.1 hf, fun r hrr => h1.2 r hrr⟩

/-- The chunk fold preserves the page bookkeeping invariant. -/
theorem foldl_calcChunk_inv :
    ∀ (data : List WikiExport.Chunk) (st : WikiExport.CalcSt),
      WikiExport.calcInv st →
      WikiExport.calcInv (data.foldl WikiExport.calcChunk st) := by
  intro data
  induction data with
  | nil => intro st h; exact h
  | cons ch rest ih =>
    intro st h
    rw [List.foldl_cons]
    exact ih _ (calcChunk_inv st ch h)

/-- Claim C1, amended.  Contiguity holds only in restricted forms: in the
pages computed by `_calculate` (before border adjustment) the last page's
start always equals the previous page's end + 1; for the two-chunk
scenario (one marker and a distinct section per chunk) exactly two page
ranges are emitted which are contiguous before adjustment, while in the
built output the trimmed newline leaves the second page's start at the
first page's end + 2; and with three or more markers an intermediate
page's start equals the previous page's end, a one-character overlap. -/
theorem C1_amended :
    (∀ (data : List WikiExport.Chunk) (ps : List WikiExport.Rng)
        (p q : WikiExport.Rng),
        (WikiExport.calculate data).pages = ps ++ [p, q] →
        q.start = p.stop + 1) ∧
      (WikiExport.calculate [⟨some ['A'], "PAGE1EGAP hello".toList⟩,
          ⟨some ['B'], "PAGE2EGAP world".toList⟩]).pages =
        [⟨['1'], 0, 5⟩, ⟨['2'], 6, 11⟩] ∧
      (WikiExport.build [⟨some ['A'], "PAGE1EGAP hello".toList⟩,
          ⟨some ['B'], "PAGE2EGAP world".toList⟩]).map
        WikiExport.AnnotatedText.pages = some [⟨['1'], 0, 4⟩, ⟨['2'], 6, 10⟩] ∧
      (WikiExport.build [⟨none, "aPAGE1EGAP b".toList⟩,
          ⟨none, "cPAGE2EGAP d".toList⟩, ⟨none, "ePAGE3EGAP f".toList⟩]).map
        WikiExport.AnnotatedText.pages =
        some [⟨['1'], 0, 2⟩, ⟨['2'], 2, 4⟩, ⟨['3'], 5, 5⟩] := by
  refine ⟨?_, by decide, by decide, by decide⟩
  intro data ps p q hpq
  have hinv := foldl_calcChunk_inv data ⟨[], [], [], 0, false, [], [], 0⟩
    ⟨fun _ => rfl, fun r hr => by cases hr⟩
  unfold WikiExport.calculate at hpq
  by_cases hps : (data.foldl WikiExport.calcChunk ⟨[], [], [], 0, false, [], [], 0⟩).isPageStart
  · rw [if_pos hps] at hpq
    simp only at hpq
    have hpq2 : (data.foldl WikiExport.calcChunk ⟨[], [], [], 0, false, [], [], 0⟩).pages ++
        [⟨(data.foldl WikiExport.calcChunk ⟨[], [], [], 0, false, [], [], 0⟩).pageInfo,
          (data.foldl WikiExport.calcChunk ⟨[], [], [], 0, false, [], [], 0⟩).myLastEnd + 1,
          ((data.foldl WikiExport.calcChunk ⟨[], [], [], 0, false, [], [], 0⟩).pivot : Int) - 1⟩] =
        (ps ++ [p]) ++ [q] := by
      rw [List.append_assoc]
      exact hpq
    obtain ⟨hpages, hfq⟩ := List.append_inj' hpq2 rfl
    have hq : q = ⟨(data.foldl WikiExport.calcChunk ⟨[], [], [], 0, false, [], [], 0⟩).pageInfo,
        (data.foldl WikiExport.calcChunk ⟨[], [], [], 0, false, [], [], 0⟩).myLastEnd + 1,
        ((data.foldl WikiExport.calcChunk ⟨[], [], [], 0, false, [], [], 0⟩).pivot : Int) - 1⟩ := by
      injection hfq with h1 _
      exact h1.symm
    have hlast : (data.foldl WikiExport.calcChunk ⟨[], [], [], 0, false, [], [], 0⟩).pages.getLast? =
        some p := by
      rw [hpages]
      exact List.getLast?_concat _
    have hml := hinv.2 p hlast
    rw [hq]
    simp only
    rw [hml]
  · rw [if_neg hps] at hpq
    rw [hinv.1 (by simpa using hps)] at hpq
    simp at hpq

/-- Witness for C1 on the scenario-3 input: the second (and last) page of
`_calculate` starts right after the first page's end. -/
theorem C1_witness :
    (⟨['2'], 6, 11⟩ : WikiExport.Rng).start = (⟨['1'], 0, 5⟩ : WikiExport.Rng).stop + 1 :=
  C1_amended.1 [⟨some ['A'], "PAGE1EGAP hello".toList⟩,
    ⟨some ['B'], "PAGE2EGAP world".toList⟩] [] ⟨['1'], 0, 5⟩ ⟨['2'], 6, 11⟩
    (by decide)

/-! ## Border-adjustment postconditions -/

/-- A successful rising scan stops on a character that is neither a
newline nor a space. -/
theorem adjStartGo_some (t : List Char) :
    ∀ (fuel : Nat) (i j : Int), WikiExport.adjStartGo t fuel i = some j →
      ∃ c, WikiExport.pyGet t j = some c ∧ ¬(c = '\n' ∨ c = ' ') := by
  intro fuel
  induction fuel with
  | zero => intro i j h; cases h
  | succ f ih =>
    intro i j h
    rw [WikiExport.adjStartGo] at h
    cases hg : WikiExport.pyGet t i with
    | none => rw [hg] at h; cases h
    | some c =>
      simp only [hg] at h
      by_cases hc : c = '\n' ∨ c = ' '
      · rw [if_pos hc] at h
        exact ih (i + 1) j h
      · rw [if_neg hc] at h
        injection h with h
        subst h
        exact ⟨c, hg, hc⟩

/-- A successful falling scan stops on a character that is not a
newline. -/
theorem adjEndGo_some (t : List Char) :
    ∀ (fuel : Nat) (i j : Int), WikiExport.adjEndGo t fuel i = some j →
      ∃ c, WikiExport.pyGet t j = some c ∧ c ≠ '\n' := by
  intro fuel
  induction fuel with
  | zero => intro i j h; cases h
  | succ f ih =>
    intro i j h
    rw [WikiExport.adjEndGo] at h
    cases hg : WikiExport.pyGet t i with
    | none => rw [hg] at h; cases h
    | some c =>
      simp only [hg] at h
      by_cases hc : c = '\n'
      · rw [if_pos hc] at h
        exact ih (i - 1) j h
      · rw [if_neg hc] at h
        injection h with h
        subst h
        exact ⟨c, hg, hc⟩

/-- An adjusted entry addresses a non-separator at its start and a
non-newline at its end. -/
theorem adjustEntry_props (t : List Char) (r r' : WikiExport.Rng)
    (h : WikiExport.adjustEntry t r = some r') :
    (∃ c, WikiExport.pyGet t r'.start = some c ∧ ¬(c = '\n' ∨ c = ' ')) ∧
      (∃ c, WikiExport.pyGet t r'.stop = some c ∧ c ≠ '\n') := by
  unfold WikiExport.adjustEntry at h
  cases hs : WikiExport.adjStart t r.start with
  | none => rw [hs] at h; cases h
  | some s =>
    rw [hs] at h
    cases he : WikiExport.adjEnd t r.stop with
    | none => rw [he] at h; cases h
    | some e =>
      rw [he] at h
      injection h with h
      subst h
      exact ⟨adjStartGo_some t _ r.start s hs, adjEndGo_some t _ r.stop e he⟩

/-- Every entry of a successfully adjusted list comes from adjusting some
input entry. -/
theorem adjustAll_mem (t : List Char) :
    ∀ (rs rs' : List WikiExport.Rng), WikiExport.adjustAll t rs = some rs' →
      ∀ r' ∈ rs', ∃ r, WikiExport.adjustEntry t r = some r' := by
  intro rs
  induction rs with
  | nil =>
    intro rs' h r' hr'
    injection h with h
    subst h
    cases hr'
  | cons r rest ih =>
    intro rs' h r' hr'
    rw [WikiExport.adjustAll] at h
    cases h1 : WikiExport.adjustEntry t r with
    | none => rw [h1] at h; cases h
    | some r1 =>
      rw [h1] at h
      cases h2 : WikiExport.adjustAll t rest with
      | none => rw [h2] at h; cases h
      | some rest1 =>
        rw [h2] at h
        injection h with h
        subst h
        rcases List.mem_cons.mp hr' with heq | hmem
        · subst heq
          exact ⟨r, h1⟩
        · exact ih rest1 h2 r' hmem

/-- Claim C5, amended.  Whenever `build` returns, every section and page
range addresses, under Python indexing into the final text, a character
that is neither a space nor a newline at `start` and a character that is
not a newline at `end`; the chain `0 <= start <= end <= len(text) - 1`
claimed by the spec can fail (the end may even be negative). -/
theorem C5_amended :
    ∀ (data : List WikiExport.Chunk) (out : WikiExport.AnnotatedText),
      WikiExport.build data = some out →
      ∀ r ∈ out.sections ++ out.pages,
        (∃ c, WikiExport.pyGet out.text r.start = some c ∧ ¬(c = '\n' ∨ c = ' ')) ∧
          (∃ c, WikiExport.pyGet out.text r.stop = some c ∧ c ≠ '\n') := by
  intro data out hb r hr
  simp only [WikiExport.build] at hb
  cases hsec : WikiExport.adjustAll (WikiExport.calculate data).alltext
      (WikiExport.calculate data).sections with
  | none => simp only [hsec] at hb; cases hb
  | some secs =>
    simp only [hsec] at hb
    cases hpg : WikiExport.adjustAll (WikiExport.calculate data).alltext
        (WikiExport.calculate data).pages with
    | none => simp only [hpg] at hb; cases hb
    | some pgs =>
      simp only [hpg] at hb
      injection hb with hb
      subst hb
      rcases List.mem_append.mp hr with hmem | hmem
      · obtain ⟨r0, hr0⟩ := adjustAll_mem _ _ _ hsec r hmem
        exact adjustEntry_props _ r0 r hr0
      · obtain ⟨r0, hr0⟩ := adjustAll_mem _ _ _ hpg r hmem
        exact adjustEntry_props _ r0 r hr0

/-- Witness for C5 on the scenario-2 output's section range. -/
theorem C5_witness :
    (∃ c, WikiExport.pyGet "hello\n".toList (0 : Int) = some c ∧
        ¬(c = '\n' ∨ c = ' ')) ∧
      (∃ c, WikiExport.pyGet "hello\n".toList (4 : Int) = some c ∧ c ≠ '\n') :=
  C5_amended [⟨some "Intro".toList, "PAGE1EGAP hello".toList⟩]
    ⟨"hello\n".toList, [⟨"Intro".toList, 0, 4⟩], [⟨['1'], 1, 4⟩]⟩ (by decide)
    ⟨"Intro".toList, 0, 4⟩ (by decide)

/-! ## Success conditions for the border adjustment -/

/-- For a non-negative in-range index, Python indexing is plain `get?`. -/
theorem pyGet_of_get? (t : List Char) (i : Int) (h0 : 0 ≤ i)
    (hlt : i < (t.length : Int)) : WikiExport.pyGet t i = t.get? i.toNat := by
  simp only [WikiExport.pyGet]
  rw [if_neg (show ¬ i < 0 by omega)]
  rw [if_pos ⟨h0, hlt⟩]

/-- A successful non-negative Python index is in range. -/
theorem pyGet_some_bounds (t : List Char) (i : Int) (c : Char) (h0 : 0 ≤ i)
    (h : WikiExport.pyGet t i = some c) : i < (t.length : Int) := by
  simp only [WikiExport.pyGet] at h
  rw [if_neg (show ¬ i < 0 by omega)] at h
  by_cases hlt : 0 ≤ i ∧ i < (t.length : Int)
  · exact hlt.2
  · rw [if_neg hlt] at h
    cases h

/-- Appending on the right preserves Python indexing at non-negative
indices. -/
theorem pyGet_append_left (t u : List Char) (i : Int) (c : Char) (h0 : 0 ≤ i)
    (h : WikiExport.pyGet t i = some c) : WikiExport.pyGet (t ++ u) i = some c := by
  have hlt := pyGet_some_bounds t i c h0 h
  rw [pyGet_of_get? t i h0 hlt] at h
  rw [pyGet_of_get? (t ++ u) i h0 (by rw [List.length_append]; push_cast; omega)]
  rw [List.get?_append (by omega)]
  exact h

/-- A good range stays good when more text is appended. -/
theorem rngGood_append (t u : List Char) (r : WikiExport.Rng)
    (h : WikiExport.rngGood t r) : WikiExport.rngGood (t ++ u) r := by
  obtain ⟨h0, h1, ⟨cs, hcs, hcs'⟩, he, ⟨ce, hce, hce'⟩⟩ := h
  exact ⟨h0, h1, ⟨cs, pyGet_append_left t u r.start cs h0 hcs, hcs'⟩,
    pyGet_append_left t u r.stop '\n' (by omega) he,
    ⟨ce, pyGet_append_left t u (r.stop - 1) ce (by omega) hce, hce'⟩⟩

/-- The rising scan stops immediately on a non-separator character. -/
theorem adjStart_here (t : List Char) (i : Int) (c : Char) (h0 : 0 ≤ i)
    (hget : WikiExport.pyGet t i = some c) (hc : ¬(c = '\n' ∨ c = ' ')) :
    WikiExport.adjStart t i = some i := by
  have hlt := pyGet_some_bounds t i c h0 hget
  unfold WikiExport.adjStart
  obtain ⟨f, hf⟩ : ∃ f, ((t.length : Int) - i + 1).toNat = f + 1 :=
    ⟨((t.length : Int) - i + 1).toNat - 1, by omega⟩
  rw [hf, WikiExport.adjStartGo]
  simp only [hget]
  rw [if_neg hc]

/-- The falling scan stops after one step when the end addresses a newline
preceded by a non-newline. -/
theorem adjEnd_one_step (t : List Char) (e : Int) (c : Char) (h1 : 1 ≤ e)
    (hget : WikiExport.pyGet t e = some '\n')
    (hget2 : WikiExport.pyGet t (e - 1) = some c) (hc : ¬(c = '\n')) :
    WikiExport.adjEnd t e = some (e - 1) := by
  unfold WikiExport.adjEnd
  obtain ⟨f, hf⟩ : ∃ f, (e + (t.length : Int) + 2).toNat = (f + 1) + 1 :=
    ⟨(e + (t.length : Int) + 2).toNat - 2, by omega⟩
  rw [hf, WikiExport.adjEndGo]
  simp only [hget, if_true]
  rw [WikiExport.adjEndGo]
  simp only [hget2]
  rw [if_neg hc]

/-- A good range is adjusted successfully (its end moves one step back off
the newline). -/
theorem adjustEntry_ok (t : List Char) (r : WikiExport.Rng)
    (h : WikiExport.rngGood t r) :
    WikiExport.adjustEntry t r = some ⟨r.name, r.start, r.stop - 1⟩ := by
  obtain ⟨h0, h1, ⟨cs, hcs, hcs'⟩, he, ⟨ce, hce, hce'⟩⟩ := h
  unfold WikiExport.adjustEntry
  rw [adjStart_here t r.start cs h0 hcs hcs']
  rw [adjEnd_one_step t r.stop ce h1 he hce hce']

/-- A list of good ranges is adjusted successfully. -/
theorem adjustAll_ok (t : List Char) :
    ∀ rs : List WikiExport.Rng, (∀ r ∈ rs, WikiExport.rngGood t r) →
      ∃ rs', WikiExport.adjustAll t rs = some rs' := by
  intro rs
  induction rs with
  | nil => exact fun _ => ⟨[], rfl⟩
  | cons r rest ih =>
    intro h
    obtain ⟨rs', hrs'⟩ := ih (fun x hx => h x (List.mem_cons_of_mem r hx))
    refine ⟨⟨r.name, r.start, r.stop - 1⟩ :: rs', ?_⟩
    rw [WikiExport.adjustAll, adjustEntry_ok t r (h r (List.mem_cons_self r rest)),
      hrs']

/-- On a safe chunk, one step of `_calculate` preserves the build
invariant: no markers fire, the chunk's body and a newline are appended,
and the new section range is adjustable. -/
theorem calcChunk_buildInv (st : WikiExport.CalcSt) (ch : WikiExport.Chunk)
    (hinv : WikiExport.buildInv st) (hsafe : WikiExport.chunkSafe ch = true) :
    WikiExport.buildInv (WikiExport.calcChunk st ch) := by
  obtain ⟨hpages, hips, hpivot, hsecs⟩ := hinv
  simp only [WikiExport.chunkSafe, Bool.and_eq_true] at hsafe
  obtain ⟨⟨⟨⟨hsect, hmark⟩, hne⟩, hhead⟩, hlast⟩ := hsafe
  have hmark' : WikiExport.findMarkers ch.text = [] := by
    simpa using hmark
  have hne' : ch.text ≠ [] := by simpa using hne
  obtain ⟨c0, ntail, hn⟩ : ∃ c d, ch.text = c :: d := by
    cases hx : ch.text with
    | nil => exact absurd hx hne'
    | cons c d => exact ⟨c, d, rfl⟩
  have hc0 : ¬(c0 = '\n' ∨ c0 = ' ') := by
    rw [hn] at hhead
    simp only [List.head?_cons, Bool.not_eq_true', Bool.or_eq_false_iff] at hhead
    rintro (h | h) <;> simp [h] at hhead
  obtain ⟨ce, hce⟩ : ∃ ce, ch.text.getLast? = some ce := by
    cases hx : ch.text.getLast? with
    | none => rw [hx] at hlast; cases hlast
    | some c => exact ⟨c, rfl⟩
  have hce' : ¬(ce = '\n') := by
    rw [hce] at hlast
    simpa using hlast
  have hTlen : 1 ≤ ch.text.length := by rw [hn]; simp
  simp only [WikiExport.calcChunk, hmark', WikiExport.calcMarkers, List.drop_zero]
  rw [if_pos (show WikiExport.sectTruthy ch.sect = true from hsect)]
  refine ⟨hpages, hips, by simp, ?_⟩
  intro r hr
  simp only at hr
  have hLlen : (st.alltext ++ ch.text ++ ['\n']).length =
      st.alltext.length + ch.text.length + 1 := by
    simp only [List.length_append, List.length_singleton]
  rcases List.mem_append.mp hr with hold | hnew
  · have hg := rngGood_append st.alltext (ch.text ++ ['\n']) r (hsecs r hold)
    rw [← List.append_assoc] at hg
    exact hg
  · simp only [List.mem_singleton] at hnew
    subst hnew
    refine ⟨by rw [hpivot]; positivity, by simp only; omega, ?_, ?_, ?_⟩
    · refine ⟨c0, ?_, hc0⟩
      simp only
      rw [hpivot]
      rw [pyGet_of_get? _ _ (by positivity) (by omega)]
      have htn : ((st.alltext.length : Int)).toNat = st.alltext.length := by omega
      rw [htn, List.append_assoc, List.get?_append_right (le_refl _)]
      rw [Nat.sub_self, hn]
      rfl
    · simp only
      rw [pyGet_of_get? _ _ (by omega) (by omega)]
      have htn : (((st.alltext ++ ch.text ++ ['\n']).length : Int) - 1).toNat =
          (st.alltext ++ ch.text ++ ['\n']).length - 1 := by omega
      rw [htn, ← List.getLast?_eq_get?, List.getLast?_concat]
    · refine ⟨ce, ?_, hce'⟩
      simp only
      rw [pyGet_of_get? _ _ (by omega) (by omega)]
      have htn : (((st.alltext ++ ch.text ++ ['\n']).length : Int) - 1 - 1).toNat =
          st.alltext.length + (ch.text.length - 1) := by
        rw [hLlen]
        omega
      rw [htn, List.append_assoc,
        List.get?_append_right (Nat.le_add_right _ _)]
      have hidx : st.alltext.length + (ch.text.length - 1) - st.alltext.length =
          ch.text.length - 1 := by omega
      rw [hidx, List.get?_append (by omega), ← List.getLast?_eq_get?]
      exact hce

/-- The chunk fold preserves the build invariant over safe chunks. -/
theorem foldl_buildInv :
    ∀ (data : List WikiExport.Chunk) (st : WikiExport.CalcSt),
      WikiExport.buildInv st → (∀ ch ∈ data, WikiExport.chunkSafe ch = true) →
      WikiExport.buildInv (data.foldl WikiExport.calcChunk st) := by
  intro data
  induction data with
  | nil => intro st h _; exact h
  | cons ch rest ih =>
    intro st h hsafe
    rw [List.foldl_cons]
    exact ih _ (calcChunk_buildInv st ch h (hsafe ch (List.mem_cons_self ch rest)))
      (fun x hx => hsafe x (List.mem_cons_of_mem ch hx))

/-- Claim C3, amended.  `build` raises no exception on chunk sequences in
which every chunk has a truthy section and marker-free non-empty text that
neither starts with a space or newline nor ends with a newline; on general
well-formed input the border adjustment can run out of range (see the
counterexample), so the unconditional claim fails. -/
theorem C3_amended :
    ∀ data : List WikiExport.Chunk,
      (∀ ch ∈ data, WikiExport.chunkSafe ch = true) →
      ∃ out, WikiExport.build data = some out := by
  intro data hsafe
  have hinv : WikiExport.buildInv (data.foldl WikiExport.calcChunk
      ⟨[], [], [], 0, false, [], [], 0⟩) :=
    foldl_buildInv data ⟨[], [], [], 0, false, [], [], 0⟩
      ⟨rfl, rfl, by simp, fun r hr => by cases hr⟩ hsafe
  have hcalc : WikiExport.calculate data =
      data.foldl WikiExport.calcChunk ⟨[], [], [], 0, false, [], [], 0⟩ := by
    unfold WikiExport.calculate
    rw [if_neg (by rw [hinv.2.1]; simp)]
  obtain ⟨secs, hsecs⟩ := adjustAll_ok _ _ hinv.2.2.2
  refine ⟨⟨(data.foldl WikiExport.calcChunk ⟨[], [], [], 0, false, [], [], 0⟩).alltext,
    secs, []⟩, ?_⟩
  simp only [WikiExport.build, hcalc, hsecs, hinv.1, WikiExport.adjustAll]

/-- Witness for C3 on a two-chunk sectioned document with no markers. -/
theorem C3_witness :
    ∃ out, WikiExport.build [⟨some ['A'], "ab".toList⟩, ⟨some ['B'], "cd".toList⟩] =
      some out :=
  C3_amended [⟨some ['A'], "ab".toList⟩, ⟨some ['B'], "cd".toList⟩] (by decide)
